import Mathlib

/-!
# jira-track-activity: the grouping loop, the report loop and the field resolver

A shallow embedding of `src/feed.go` and `src/jira.go`.

* Go strings are byte sequences, so `GoString` is a list of bytes and the
  slices `s[:n]`, `s[n:]` are partial: out of range is `none` (a Go panic).
* `map[string][]Entry` is a finite map read with a nil default, and the
  `linkedhashset` of keys is the list of its values in insertion order.
* `getJobNumber` is recursive without a bound in the source; the embedding
  carries a fuel argument (one unit per call) and records every request it
  builds.
-/

namespace JiraTrack

/-! ## Go strings -/

/-- A Go string: a sequence of bytes. -/
abbrev GoString := List UInt8

/-- The bytes of an ASCII literal. -/
def str (s : String) : GoString := s.toList.map (fun c => UInt8.ofNat c.toNat)

/-- Go `s[:n]`; out of range panics, which is `none`. -/
def sliceTo (s : GoString) (n : Nat) : Option GoString :=
  if n ≤ s.length then some (s.take n) else none

/-- Go `s[n:]`; out of range panics, which is `none`. -/
def sliceFrom (s : GoString) (n : Nat) : Option GoString :=
  if n ≤ s.length then some (s.drop n) else none

/-! ## feed.go -/

/-- The `xml.Name` of encoding/xml. -/
structure XMLName where
  Space : GoString
  Local : GoString
deriving DecidableEq

/-- The `Target` struct of feed.go. -/
structure Target where
  XMLName : XMLName
  Id : GoString
  Title : GoString
deriving DecidableEq

/-- The `Object` struct of feed.go. -/
structure Object where
  XMLName : XMLName
  Id : GoString
  Title : GoString
deriving DecidableEq

/-- The `Entry` struct of feed.go. -/
structure Entry where
  XMLName : XMLName
  Id : GoString
  Title : GoString
  Summary : GoString
  Content : GoString
  Published : GoString
  Updated : GoString
  Object : Object
  Target : Target
deriving DecidableEq

/-- The `Feed` struct of feed.go. -/
structure Feed where
  XMLName : XMLName
  Id : GoString
  Title : GoString
  Entries : List Entry
deriving DecidableEq

/-! ## The containers of the grouping loop -/

/-- A `map[string][]Entry`: the keys that were assigned carry `some` slice. -/
abbrev EntryMap := GoString → Option (List Entry)

/-- The result of `make(map[string][]Entry)`. -/
def EntryMap.empty : EntryMap := fun _ => none

/-- The read `m[k]`: the nil slice for a key that is absent. -/
def EntryMap.get (m : EntryMap) (k : GoString) : List Entry := (m k).getD []

/-- The assignment `m[k] = v`. -/
def EntryMap.set (m : EntryMap) (k : GoString) (v : List Entry) : EntryMap :=
  fun k' => if k' = k then some v else m k'

/-- The `Add` of linkedhashset on the list that `Values()` returns: an item
that is already present is skipped, a new one goes to the end. -/
def linkedAdd (ks : List GoString) (k : GoString) : List GoString :=
  if k ∈ ks then ks else ks ++ [k]

/-! ## jira.go: the grouping loop of main (lines 81-93) -/

/-- The ticket of an entry (lines 86-89): the target title, and the object
title when the target title is empty. -/
def ticketOf (entry : Entry) : GoString :=
  if entry.Target.Title = [] then entry.Object.Title else entry.Target.Title

/-- The call `fmt.Sprintf("%s_%s", date, ticket)` of line 90. -/
def sprintfKey (date ticket : GoString) : GoString := date ++ str "_" ++ ticket

/-- The key of an entry (lines 85-90); `none` when `entry.Updated[:10]`
panics. -/
def entryKey (entry : Entry) : Option GoString :=
  (sliceTo entry.Updated 10).map (fun date => sprintfKey date (ticketOf entry))

/-- One iteration of the grouping loop (lines 84-93) on the pair
(groupedEntries, keys). -/
def groupStep (st : EntryMap × List GoString) (entry : Entry) :
    Option (EntryMap × List GoString) :=
  (entryKey entry).map (fun key =>
    (st.1.set key (st.1.get key ++ [entry]), linkedAdd st.2 key))

/-- The grouping loop over the entries, from a given state. -/
def groupLoop : EntryMap × List GoString → List Entry → Option (EntryMap × List GoString)
  | st, [] => some st
  | st, entry :: rest => (groupStep st entry).bind (fun st' => groupLoop st' rest)

/-- Lines 81-93 of main: the group map and `keys.Values()` of a feed. -/
def groupEntries (feeds : Feed) : Option (EntryMap × List GoString) :=
  groupLoop (EntryMap.empty, []) feeds.Entries

/-! ## jira.go: the report loop of main (lines 94-103) -/

/-- What the report loop does, in order: a `fmt.Println` of a date, or a call
of `printActionDetail`. -/
inductive Out where
  | println (line : GoString)
  | printActionDetail (ticket : GoString) (entries : List Entry)
deriving DecidableEq

/-- One iteration of the report loop (lines 95-103) on the pair
(date, output so far). -/
def reportStep (groupedEntries : EntryMap) (st : GoString × List Out) (key : GoString) :
    Option (GoString × List Out) :=
  (sliceTo key 10).bind (fun currentDate =>
    (sliceFrom key 11).map (fun ticket =>
      let st1 : GoString × List Out :=
        if currentDate ≠ st.1 then (currentDate, st.2 ++ [Out.println currentDate]) else st
      (st1.1, st1.2 ++ [Out.printActionDetail ticket (groupedEntries.get key)])))

/-- The report loop over the key sequence, from a given state. -/
def reportLoop (groupedEntries : EntryMap) :
    GoString × List Out → List GoString → Option (GoString × List Out)
  | st, [] => some st
  | st, key :: rest =>
      (reportStep groupedEntries st key).bind (fun st' => reportLoop groupedEntries st' rest)

/-- Lines 94-103 of main: `var date string` starts empty. -/
def report (groupedEntries : EntryMap) (keys : List GoString) : Option (List Out) :=
  (reportLoop groupedEntries ([], []) keys).map Prod.snd

/-- Lines 81-103 of main on a parsed feed. -/
def mainReport (feeds : Feed) : Option (List Out) :=
  (groupEntries feeds).bind (fun st => report st.1 st.2)

/-! ## jira.go: configuration, validateData, isValidTicket, getJobNumber -/

/-- The fields `getJobNumber` reads from an issue-detail response: the strings
of `fields.<topixFieldName>`, `fields.<jobFieldName>` and `fields.parent.key`
(empty when the path is absent). -/
structure Issue where
  topix : GoString
  job : GoString
  parent : GoString
deriving DecidableEq

/-- An outgoing HTTP request: method, URL and Authorization header. -/
structure Request where
  method : GoString
  url : GoString
  authorization : GoString
deriving DecidableEq

/-- What the program consults outside the repository: the process
environment (`os.Getenv`, empty for an unset variable), the issue-detail API
as a lookup from ticket id to the fields read, and `strings.TrimSpace` of the
standard library. -/
structure World where
  getenv : GoString → GoString
  issue : GoString → Issue
  TrimSpace : GoString → GoString

/-- Line 20. -/
def topixFieldName (w : World) : GoString := w.getenv (str "J_TOPIX_FIELD_NAME")

/-- Line 21. -/
def jobFieldName (w : World) : GoString := w.getenv (str "J_JOB_FIELD_NAME")

/-- Line 22. -/
def jiraURL (w : World) : GoString := w.getenv (str "J_JIRA_URL")

/-- Line 26. -/
def excludeConfluence (w : World) : GoString := w.getenv (str "J_EXCLUDE_CONFLUENCE")

/-- Line 27. -/
def token (w : World) : GoString := w.getenv (str "J_JIRA_TOKEN")

/-- The function `validateData` (lines 106-129): `none` is the nil error. -/
def validateData (w : World) (userName : GoString) : Option GoString :=
  if userName.length = 0 then some (str "username can't be empty")
  else if (topixFieldName w).length = 0 then some (str "topix field name can't be empty")
  else if (token w).length = 0 then some (str "jira token can't be empty")
  else if (excludeConfluence w).length = 0 then some (str "exclude confluence can't be empty")
  else if (jiraURL w).length = 0 then some (str "jira URL can't be empty")
  else if (jobFieldName w).length = 0 then some (str "job field name can't be empty")
  else none

/-- The activity-feed request of main (lines 61-65) for the URL built on
line 50. -/
def feedRequest (w : World) (url : GoString) : Request :=
  { method := str "GET", url := url, authorization := token w }

/-- The class `\w` of Go regexp: `[0-9A-Za-z_]`. -/
def isWordByte (c : UInt8) : Bool :=
  (48 ≤ c && c ≤ 57) || (65 ≤ c && c ≤ 90) || c = 95 || (97 ≤ c && c ≤ 122)

/-- The class `\d` of Go regexp: `[0-9]`. -/
def isDigitByte (c : UInt8) : Bool := 48 ≤ c && c ≤ 57

/-- Whether the unanchored pattern `\w+-\d+` matches somewhere in the string:
a word byte, a hyphen and a digit in a row. -/
def matchesTicketPattern : GoString → Bool
  | a :: b :: c :: rest =>
      (isWordByte a && b = 45 && isDigitByte c) || matchesTicketPattern (b :: c :: rest)
  | _ => false

/-- The call `regexp.Match(ticketPattern, []byte(ticket))` of line 182: the
pattern is a constant that compiles, so the error is nil. -/
def regexpMatchTicket (ticket : GoString) : Bool × Option GoString :=
  (matchesTicketPattern ticket, none)

/-- The function `isValidTicket` (lines 180-186). -/
def isValidTicket (ticket : GoString) : GoString × Option GoString :=
  let r := regexpMatchTicket ticket
  if r.2 ≠ none ∧ r.1 = true then (ticket, r.2) else (ticket, none)

/-- The issue-detail request of `getJobNumber` (lines 153-159). -/
def issueRequest (w : World) (ticket : GoString) : Request :=
  { method := str "GET",
    url := jiraURL w ++ str "/rest/api/latest/issue/" ++ ticket,
    authorization := w.getenv (str "JIRA_TOKEN") }

/-- The function `getJobNumber` (lines 148-178), with one unit of fuel per
call. The first component lists the requests sent, in order; the second is
the returned pair, or `none` when the fuel ran out before a return.
Transport failures are outside the model: every request is answered by
`w.issue`. -/
def getJobNumber (w : World) : Nat → GoString → List Request × Option (GoString × GoString)
  | 0, _ => ([], none)
  | fuel + 1, ticket =>
      if (isValidTicket ticket).2 ≠ none then
        ([], some (str "Invalid ticket number " ++ ticket, []))
      else
        let req := issueRequest w ticket
        let body := w.issue ticket
        if w.TrimSpace body.topix = [] then
          if w.TrimSpace body.parent = [] then
            ([req], some (str "Missing", body.job))
          else
            let r := getJobNumber w fuel body.parent
            (req :: r.1, r.2)
        else
          ([req], some (body.topix, body.job))

/-! ## Concrete feeds -/

/-- An entry with the given `updated`, `target.title` and `object.title`, the
other fields empty. -/
def mkEntry (updated target object : String) : Entry :=
  { XMLName := ⟨[], []⟩, Id := [], Title := [], Summary := [], Content := [], Published := [],
    Updated := str updated,
    Object := { XMLName := ⟨[], []⟩, Id := [], Title := str object },
    Target := { XMLName := ⟨[], []⟩, Id := [], Title := str target } }

/-- The entry of the spec's first key example. -/
def entryT1 : Entry := mkEntry "2024-03-05T10:00:00Z" "T-1" "O-1"

/-- The entry of the spec's second key example: no target title. -/
def entryO2 : Entry := mkEntry "2024-03-05T11:30:00Z" "" "O-2"

/-- A later entry of the ticket T-1, on the next day. -/
def entryT1b : Entry := mkEntry "2024-03-06T09:00:00Z" "T-1" ""

/-- A feed with four entries and three distinct keys. -/
def sampleFeed : Feed :=
  { XMLName := ⟨[], []⟩, Id := [], Title := [],
    Entries := [entryT1, entryO2, entryT1, entryT1b] }

/-! ## Concrete worlds -/

/-- The ASCII white space of `strings.TrimSpace`: tab, line feed, vertical
tab, form feed, carriage return and space. -/
def isAsciiSpace (c : UInt8) : Bool :=
  c = 9 || c = 10 || c = 11 || c = 12 || c = 13 || c = 32

/-- What `strings.TrimSpace` returns on an ASCII string: the string without
its leading and trailing white space. -/
def asciiTrimSpace (s : GoString) : GoString :=
  ((s.dropWhile isAsciiSpace).reverse.dropWhile isAsciiSpace).reverse

/-- A lookup in a table of strings; what is absent reads as the default. -/
def lookupIn {β : Type} (table : List (String × β)) (dflt : β) (name : GoString) : β :=
  ((table.find? (fun row => decide (str row.1 = name))).map Prod.snd).getD dflt

/-- An issue given by its three fields. -/
def mkIssue (topix job parent : String) : Issue :=
  { topix := str topix, job := str job, parent := str parent }

/-- An environment with every variable that `validateData` checks set, and
`JIRA_TOKEN` unset. -/
def sampleEnv : GoString → GoString :=
  lookupIn
    [("J_TOPIX_FIELD_NAME", str "customfield_10001"),
     ("J_JOB_FIELD_NAME", str "customfield_10002"),
     ("J_JIRA_URL", str "https://jira.example.com"),
     ("J_EXCLUDE_CONFLUENCE", str "providers=issues"),
     ("J_JIRA_TOKEN", str "Bearer abc"),
     ("J_DEFAULT_USER", str "alice")] []

/-- The world of a table of issues under `sampleEnv`; an issue that is absent
has all three fields empty. -/
def worldOf (issues : List (String × Issue)) : World :=
  { getenv := sampleEnv, issue := lookupIn issues (mkIssue "" "" ""),
    TrimSpace := asciiTrimSpace }

/-- The spec's one-hop example: T-1 has a topix number and a parent. -/
def oneHopWorld : World :=
  worldOf [("T-1", mkIssue "TPX-9" "JOB-1" "T-2"), ("T-2", mkIssue "TPX-5" "JOB-2" "")]

/-- The spec's recursion example, with a third ticket T-0 below T-1 whose
topix field is white space only. -/
def chainWorld : World :=
  worldOf [("T-0", mkIssue "  " "JOB-0" "T-1"), ("T-1", mkIssue "" "JOB-1" "T-2"),
    ("T-2", mkIssue "TPX-5" "JOB-2" "")]

/-- A ticket R-1 with no topix number and no parent, and a child C-1 of it. -/
def rootWorld : World :=
  worldOf [("C-1", mkIssue "" "JOB-C" "R-1"), ("R-1", mkIssue "" "JOB-R" "")]

/-- The spec's cycle example: T-1 and T-2 are each other's parent and neither
has a topix number. -/
def cycleWorld : World :=
  worldOf [("T-1", mkIssue "" "JOB-1" "T-2"), ("T-2", mkIssue "" "JOB-2" "T-1")]

/-- The tickets met from T-1 in `cycleWorld`: T-1, T-2, T-1, ... -/
def cycleTickets (i : Nat) : GoString := if i % 2 = 0 then str "T-1" else str "T-2"

/-! ## Specification-side definitions -/

/-- The spec's key sequence: the derived keys with duplicates removed, the
first occurrence of each kept. -/
def dedupKeepFirst : List GoString → List GoString
  | [] => []
  | k :: rest => k :: (dedupKeepFirst rest).filter (fun x => decide (x ≠ k))

/-- The spec's block of one key in the report, given the key before it in the
key sequence (`none` for the first key): a date header exactly when the date
of the key differs from the date of the key before it, then the ticket
block. The date is the first 10 bytes of a key, the ticket what follows
byte 11. -/
def keyBlock (groupedEntries : EntryMap) (prev : Option GoString) (key : GoString) : List Out :=
  (if prev.map (List.take 10) ≠ some (key.take 10) then [Out.println (key.take 10)] else []) ++
    [Out.printActionDetail (key.drop 11) (groupedEntries.get key)]

/-- Whether an output item is a date header. -/
def Out.isHeader : Out → Bool
  | Out.println _ => true
  | Out.printActionDetail _ _ => false

/-! ## Lemmas: strings and keys -/

theorem str_underscore : str "_" = [95] := by decide

theorem sliceTo_of_le (s : GoString) (n : Nat) (h : n ≤ s.length) :
    sliceTo s n = some (s.take n) := by
  simp [sliceTo, h]

theorem sliceFrom_of_le (s : GoString) (n : Nat) (h : n ≤ s.length) :
    sliceFrom s n = some (s.drop n) := by
  simp [sliceFrom, h]

theorem entryKey_of_le (e : Entry) (h : 10 ≤ e.Updated.length) :
    entryKey e = some (sprintfKey (e.Updated.take 10) (ticketOf e)) := by
  simp [entryKey, sliceTo, h]

theorem entryKey_isSome_iff (e : Entry) : (entryKey e).isSome ↔ 10 ≤ e.Updated.length := by
  unfold entryKey sliceTo
  split <;> simp_all

/-! ## Lemmas: the grouping loop -/

theorem groupLoop_some (es : List Entry) (h : ∀ e ∈ es, 10 ≤ e.Updated.length)
    (st : EntryMap × List GoString) : ∃ st', groupLoop st es = some st' := by
  induction es generalizing st with
  | nil => exact ⟨st, rfl⟩
  | cons e rest ih =>
    have he : 10 ≤ e.Updated.length := h e (List.mem_cons_self _ _)
    have hr : ∀ x ∈ rest, 10 ≤ x.Updated.length := fun x hx => h x (List.mem_cons_of_mem _ hx)
    simp only [groupLoop, groupStep, entryKey_of_le e he, Option.map_some', Option.some_bind]
    exact ih hr _

theorem EntryMap.get_set (m : EntryMap) (k k' : GoString) (v : List Entry) :
    (m.set k v).get k' = if k' = k then v else m.get k' := by
  unfold EntryMap.get EntryMap.set
  split <;> simp

theorem groupLoop_get (es : List Entry) (st st' : EntryMap × List GoString)
    (h : groupLoop st es = some st') (k : GoString) :
    st'.1.get k = st.1.get k ++ es.filter (fun e => decide (entryKey e = some k)) := by
  induction es generalizing st with
  | nil =>
    simp only [groupLoop, Option.some.injEq] at h
    subst h
    simp
  | cons e rest ih =>
    simp only [groupLoop, groupStep] at h
    cases hk : entryKey e with
    | none => simp [hk] at h
    | some key =>
      simp only [hk, Option.map_some', Option.some_bind] at h
      rw [ih _ h, EntryMap.get_set]
      by_cases hkk : k = key
      · subst hkk
        simp [List.filter_cons, hk]
      · have hne : ¬ (key = k) := fun hc => hkk hc.symm
        simp [List.filter_cons, hk, hkk, hne]

theorem groupLoop_keys (es : List Entry) (st st' : EntryMap × List GoString)
    (h : groupLoop st es = some st') :
    st'.2 = (es.filterMap entryKey).foldl linkedAdd st.2 := by
  induction es generalizing st with
  | nil =>
    simp only [groupLoop, Option.some.injEq] at h
    subst h
    simp
  | cons e rest ih =>
    simp only [groupLoop, groupStep] at h
    cases hk : entryKey e with
    | none => simp [hk] at h
    | some key =>
      simp only [hk, Option.map_some', Option.some_bind] at h
      rw [ih _ h]
      simp [List.filterMap_cons, hk]

theorem groupLoop_dom (es : List Entry) (st st' : EntryMap × List GoString)
    (h : groupLoop st es = some st') (k : GoString) :
    (st'.1 k).isSome ↔ (st.1 k).isSome ∨ k ∈ es.filterMap entryKey := by
  induction es generalizing st with
  | nil =>
    simp only [groupLoop, Option.some.injEq] at h
    subst h
    simp
  | cons e rest ih =>
    simp only [groupLoop, groupStep] at h
    cases hk : entryKey e with
    | none => simp [hk] at h
    | some key =>
      simp only [hk, Option.map_some', Option.some_bind] at h
      rw [ih _ h]
      simp only [EntryMap.set, List.filterMap_cons, hk, List.mem_cons]
      by_cases hkk : k = key
      · simp [hkk]
      · simp [hkk]

theorem filterMap_entryKey_length (es : List Entry) (h : ∀ e ∈ es, 10 ≤ e.Updated.length) :
    (es.filterMap entryKey).length = es.length := by
  induction es with
  | nil => rfl
  | cons e rest ih =>
    have he : 10 ≤ e.Updated.length := h e (List.mem_cons_self _ _)
    have hr : ∀ x ∈ rest, 10 ≤ x.Updated.length := fun x hx => h x (List.mem_cons_of_mem _ hx)
    simp [List.filterMap_cons, entryKey_of_le e he, ih hr]

/-! ## Lemmas: first-occurrence de-duplication -/

theorem mem_dedupKeepFirst (l : List GoString) (k : GoString) :
    k ∈ dedupKeepFirst l ↔ k ∈ l := by
  induction l with
  | nil => simp [dedupKeepFirst]
  | cons a rest ih =>
    simp only [dedupKeepFirst, List.mem_cons, List.mem_filter, ih, decide_eq_true_eq]
    by_cases h : k = a
    · simp [h]
    · simp [h]

theorem nodup_dedupKeepFirst (l : List GoString) : (dedupKeepFirst l).Nodup := by
  induction l with
  | nil => simp [dedupKeepFirst]
  | cons a rest ih =>
    simp only [dedupKeepFirst, List.nodup_cons, List.mem_filter, decide_eq_true_eq]
    exact ⟨fun h => h.2 rfl, ih.filter _⟩

theorem toFinset_dedupKeepFirst (l : List GoString) :
    (dedupKeepFirst l).toFinset = l.toFinset := by
  ext k
  simp [mem_dedupKeepFirst]

theorem length_dedupKeepFirst (l : List GoString) :
    (dedupKeepFirst l).length = l.toFinset.card := by
  rw [← toFinset_dedupKeepFirst, List.toFinset_card_of_nodup (nodup_dedupKeepFirst l)]

theorem foldl_linkedAdd (l ks : List GoString) :
    l.foldl linkedAdd ks = ks ++ (dedupKeepFirst l).filter (fun x => decide (x ∉ ks)) := by
  induction l generalizing ks with
  | nil => simp [dedupKeepFirst]
  | cons a rest ih =>
    simp only [List.foldl_cons, dedupKeepFirst]
    rw [ih]
    by_cases ha : a ∈ ks
    · simp only [linkedAdd, ha, if_true, List.filter_cons, not_true_eq_false, decide_False,
        Bool.false_eq_true, if_false, List.filter_filter]
      congr 1
      apply List.filter_congr
      intro x _
      by_cases hx : x ∈ ks
      · simp [hx]
      · have : x ≠ a := fun hc => hx (hc ▸ ha)
        simp [hx, this]
    · simp only [linkedAdd, ha, if_false, List.filter_cons, not_false_eq_true, decide_True,
        if_true, List.filter_filter, List.append_assoc, List.singleton_append]
      congr 2
      apply List.filter_congr
      intro x _
      by_cases hx : x ∈ ks
      · simp [hx]
      · by_cases hxa : x = a
        · simp [hxa]
        · simp [hx, hxa]

theorem foldl_linkedAdd_nil (l : List GoString) :
    l.foldl linkedAdd [] = dedupKeepFirst l := by
  rw [foldl_linkedAdd]
  simp

theorem findIdx_filter_lt_iff (p : GoString → Bool) (a b : GoString) (ha : p a = true)
    (hb : p b = true) (l : List GoString) :
    (l.filter p).findIdx (fun x => decide (x = a)) < (l.filter p).findIdx (fun x => decide (x = b)) ↔
      l.findIdx (fun x => decide (x = a)) < l.findIdx (fun x => decide (x = b)) := by
  induction l with
  | nil => simp
  | cons x rest ih =>
    by_cases hxa : x = a
    · subst hxa
      by_cases hxb : x = b
      · subst hxb
        simp [List.filter_cons, ha, List.findIdx_cons]
      · simp [List.filter_cons, ha, List.findIdx_cons, hxb]
    · by_cases hxb : x = b
      · subst hxb
        simp [List.filter_cons, hb, List.findIdx_cons, hxa]
      · by_cases hpx : p x = true
        · simp [List.filter_cons, hpx, List.findIdx_cons, hxa, hxb, ih]
        · simp [List.filter_cons, hpx, List.findIdx_cons, hxa, hxb, ih]

theorem findIdx_dedupKeepFirst_lt_iff (l : List GoString) (a b : GoString) :
    (dedupKeepFirst l).findIdx (fun x => decide (x = a)) <
        (dedupKeepFirst l).findIdx (fun x => decide (x = b)) ↔
      l.findIdx (fun x => decide (x = a)) < l.findIdx (fun x => decide (x = b)) := by
  induction l with
  | nil => simp [dedupKeepFirst]
  | cons x rest ih =>
    simp only [dedupKeepFirst]
    by_cases hxa : x = a
    · subst hxa
      by_cases hxb : x = b
      · subst hxb
        simp [List.findIdx_cons]
      · simp [List.findIdx_cons, hxb]
    · by_cases hxb : x = b
      · subst hxb
        simp [List.findIdx_cons, hxa]
      · have pa : (fun y => decide (y ≠ x)) a = true := by simpa using fun hc => hxa hc.symm
        have pb : (fun y => decide (y ≠ x)) b = true := by simpa using fun hc => hxb hc.symm
        have key := findIdx_filter_lt_iff (fun y => decide (y ≠ x)) a b pa pb (dedupKeepFirst rest)
        simp only [List.findIdx_cons, hxa, hxb, decide_False, cond_false,
          Nat.add_lt_add_iff_right]
        rw [key, ih]

theorem findIdx_filterMap_entryKey (es : List Entry) (h : ∀ e ∈ es, 10 ≤ e.Updated.length)
    (a : GoString) :
    (es.filterMap entryKey).findIdx (fun x => decide (x = a)) =
      es.findIdx (fun e => decide (entryKey e = some a)) := by
  induction es with
  | nil => rfl
  | cons e rest ih =>
    have he : 10 ≤ e.Updated.length := h e (List.mem_cons_self _ _)
    have hr : ∀ x ∈ rest, 10 ≤ x.Updated.length := fun x hx => h x (List.mem_cons_of_mem _ hx)
    simp [List.filterMap_cons, entryKey_of_le e he, List.findIdx_cons, ih hr]

theorem sum_indicator_of_nodup (D : List GoString) (hD : D.Nodup) (k0 : GoString)
    (hk : k0 ∈ D) : (D.map (fun k => if k0 = k then 1 else 0)).sum = 1 := by
  induction D with
  | nil => simp at hk
  | cons d rest ih =>
    rw [List.nodup_cons] at hD
    by_cases hd : k0 = d
    · subst hd
      have hz : ∀ k ∈ rest, (if k0 = k then 1 else 0) = 0 := by
        intro k hk'
        have : k0 ≠ k := fun hc => hD.1 (hc ▸ hk')
        simp [this]
      simp [List.map_congr_left hz]
    · have hmem : k0 ∈ rest := by
        rcases List.mem_cons.mp hk with h1 | h1
        · exact absurd h1 hd
        · exact h1
      simp [hd, ih hD.2 hmem]

theorem sum_group_lengths (D : List GoString) (hD : D.Nodup) (es : List Entry)
    (hes : ∀ e ∈ es, ∃ k ∈ D, entryKey e = some k) :
    (D.map (fun k => (es.filter (fun e => decide (entryKey e = some k))).length)).sum =
      es.length := by
  induction es with
  | nil => simp
  | cons e rest ih =>
    obtain ⟨k0, hk0, hke⟩ := hes e (List.mem_cons_self _ _)
    have hr : ∀ x ∈ rest, ∃ k ∈ D, entryKey x = some k :=
      fun x hx => hes x (List.mem_cons_of_mem _ hx)
    have hsplit : ∀ k, ((e :: rest).filter (fun x => decide (entryKey x = some k))).length =
        (rest.filter (fun x => decide (entryKey x = some k))).length +
          (if k0 = k then 1 else 0) := by
      intro k
      by_cases hkk : k0 = k
      · subst hkk
        simp [List.filter_cons, hke]
      · simp [List.filter_cons, hke, hkk]
    simp only [hsplit, List.sum_map_add, ih hr, sum_indicator_of_nodup D hD k0 hk0,
      List.length_cons]

theorem groupEntries_eq (feeds : Feed) (h : ∀ e ∈ feeds.Entries, 10 ≤ e.Updated.length) :
    ∃ g ks, groupEntries feeds = some (g, ks) ∧
      (∀ k, g.get k = feeds.Entries.filter (fun e => decide (entryKey e = some k))) ∧
      ks = dedupKeepFirst (feeds.Entries.filterMap entryKey) ∧
      (∀ k, (g k).isSome ↔ k ∈ feeds.Entries.filterMap entryKey) := by
  obtain ⟨st', hst⟩ := groupLoop_some feeds.Entries h (EntryMap.empty, [])
  refine ⟨st'.1, st'.2, hst, ?_, ?_, ?_⟩
  · intro k
    rw [groupLoop_get _ _ _ hst k]
    simp [EntryMap.get, EntryMap.empty]
  · rw [groupLoop_keys _ _ _ hst]
    exact foldl_linkedAdd_nil _
  · intro k
    rw [groupLoop_dom _ _ _ hst k]
    simp [EntryMap.empty]

/-! ## Lemmas: the key encoding and the report loop -/

theorem length_sprintfKey (date ticket : GoString) :
    (sprintfKey date ticket).length = date.length + 1 + ticket.length := by
  simp [sprintfKey, str_underscore]
  omega

theorem take_sprintfKey (date ticket : GoString) (h : date.length = 10) :
    (sprintfKey date ticket).take 10 = date := by
  unfold sprintfKey
  rw [List.append_assoc]
  exact List.take_left' h

theorem drop_sprintfKey (date ticket : GoString) (h : date.length = 10) :
    (sprintfKey date ticket).drop 11 = ticket := by
  unfold sprintfKey
  exact List.drop_left' (by simp [str_underscore, h])

theorem length_take_updated (e : Entry) (h : 10 ≤ e.Updated.length) :
    (e.Updated.take 10).length = 10 := by
  simp [List.length_take, h]

theorem sprintfKey_inj (d1 d2 t1 t2 : GoString) (h1 : d1.length = 10) (h2 : d2.length = 10) :
    sprintfKey d1 t1 = sprintfKey d2 t2 ↔ d1 = d2 ∧ t1 = t2 := by
  constructor
  · intro h
    have ha := congrArg (List.take 10) h
    have hb := congrArg (List.drop 11) h
    rw [take_sprintfKey _ _ h1, take_sprintfKey _ _ h2] at ha
    rw [drop_sprintfKey _ _ h1, drop_sprintfKey _ _ h2] at hb
    exact ⟨ha, hb⟩
  · rintro ⟨rfl, rfl⟩
    rfl

theorem length_of_entryKey (e : Entry) (k : GoString) (h : entryKey e = some k) :
    11 ≤ k.length := by
  have hl : 10 ≤ e.Updated.length := (entryKey_isSome_iff e).mp (by simp [h])
  rw [entryKey_of_le e hl] at h
  have := Option.some.inj h
  subst this
  rw [length_sprintfKey, length_take_updated e hl]
  omega

theorem reportStep_eq (m : EntryMap) (prev : Option GoString) (date : GoString)
    (out : List Out) (key : GoString) (hk : 11 ≤ key.length)
    (hinv : date = (prev.map (List.take 10)).getD [])
    (hprev : ∀ p, prev = some p → 11 ≤ p.length) :
    reportStep m (date, out) key = some (key.take 10, out ++ keyBlock m prev key) := by
  have h10 : 10 ≤ key.length := by omega
  have hlen : (key.take 10).length = 10 := by simp [List.length_take, h10]
  simp only [reportStep, sliceTo_of_le key 10 h10, sliceFrom_of_le key 11 hk, Option.some_bind,
    Option.map_some', keyBlock]
  cases prev with
  | none =>
    have hne : key.take 10 ≠ date := by
      intro hc
      rw [hinv] at hc
      simp [hc] at hlen
    simp [hne]
  | some p =>
    subst hinv
    by_cases hd : key.take 10 = p.take 10
    · simp [hd]
    · have hd' : ¬ (p.take 10 = key.take 10) := fun hc => hd hc.symm
      simp [hd, hd']

theorem reportLoop_eq (m : EntryMap) (ks : List GoString) (hks : ∀ k ∈ ks, 11 ≤ k.length)
    (prev : Option GoString) (date : GoString) (out : List Out)
    (hinv : date = (prev.map (List.take 10)).getD [])
    (hprev : ∀ p, prev = some p → 11 ≤ p.length) :
    ∃ date', reportLoop m (date, out) ks =
      some (date', out ++ (List.zip (prev :: ks.map some) ks).flatMap
        (fun pk => keyBlock m pk.1 pk.2)) := by
  induction ks generalizing prev date out with
  | nil => exact ⟨date, by simp [reportLoop]⟩
  | cons k rest ih =>
    have hk : 11 ≤ k.length := hks k (List.mem_cons_self _ _)
    have hr : ∀ x ∈ rest, 11 ≤ x.length := fun x hx => hks x (List.mem_cons_of_mem _ hx)
    obtain ⟨date', hd⟩ := ih hr (some k) (k.take 10) (out ++ keyBlock m prev k) (by simp)
      (by intro p hp; cases hp; exact hk)
    refine ⟨date', ?_⟩
    simp only [reportLoop, reportStep_eq m prev date out k hk hinv hprev, Option.some_bind, hd]
    simp [List.append_assoc]

theorem countP_isHeader_keyBlock (m : EntryMap) (prev : Option GoString) (key : GoString) :
    (keyBlock m prev key).countP Out.isHeader =
      if prev.map (List.take 10) ≠ some (key.take 10) then 1 else 0 := by
  unfold keyBlock
  split <;> simp [Out.isHeader, List.countP_cons]

theorem countP_isHeader_blocks (m : EntryMap) (l : List (Option GoString × GoString)) :
    (l.flatMap (fun pk => keyBlock m pk.1 pk.2)).countP Out.isHeader =
      l.countP (fun pk => decide (pk.1.map (List.take 10) ≠ some (pk.2.take 10))) := by
  induction l with
  | nil => simp
  | cons a rest ih =>
    simp only [List.flatMap_cons, List.countP_append, ih, countP_isHeader_keyBlock,
      List.countP_cons]
    by_cases h : a.1.map (List.take 10) = some (a.2.take 10)
    · simp [h, Nat.add_comm]
    · simp [h, Nat.add_comm]

theorem keys_length_of_groupEntries (feeds : Feed) (ks : List GoString)
    (hks : ks = dedupKeepFirst (feeds.Entries.filterMap entryKey)) :
    ∀ k ∈ ks, 11 ≤ k.length := by
  intro k hk
  rw [hks, mem_dedupKeepFirst, List.mem_filterMap] at hk
  obtain ⟨e, _, he⟩ := hk
  exact length_of_entryKey e k he

/-! ## Lemmas: the field resolver -/

theorem isValidTicket_snd (ticket : GoString) : (isValidTicket ticket).2 = none := by
  simp [isValidTicket, regexpMatchTicket]

theorem getJobNumber_found (w : World) (fuel : Nat) (ticket : GoString)
    (h : w.TrimSpace (w.issue ticket).topix ≠ []) :
    getJobNumber w (fuel + 1) ticket =
      ([issueRequest w ticket], some ((w.issue ticket).topix, (w.issue ticket).job)) := by
  simp [getJobNumber, isValidTicket_snd, h]

theorem getJobNumber_root (w : World) (fuel : Nat) (ticket : GoString)
    (h : w.TrimSpace (w.issue ticket).topix = [])
    (hp : w.TrimSpace (w.issue ticket).parent = []) :
    getJobNumber w (fuel + 1) ticket =
      ([issueRequest w ticket], some (str "Missing", (w.issue ticket).job)) := by
  simp [getJobNumber, isValidTicket_snd, h, hp]

theorem getJobNumber_hop (w : World) (fuel : Nat) (ticket : GoString)
    (h : w.TrimSpace (w.issue ticket).topix = [])
    (hp : w.TrimSpace (w.issue ticket).parent ≠ []) :
    getJobNumber w (fuel + 1) ticket =
      (issueRequest w ticket :: (getJobNumber w fuel (w.issue ticket).parent).1,
        (getJobNumber w fuel (w.issue ticket).parent).2) := by
  simp [getJobNumber, isValidTicket_snd, h, hp]

theorem range_succ_map_shift (f : Nat → Request) (n : Nat) :
    (List.range (n + 1)).map f = f 0 :: (List.range n).map (fun i => f (i + 1)) := by
  rw [List.range_succ_eq_map]
  simp [List.map_map, Function.comp_def]

/-- The walk up a chain of tickets without a topix number, down to a last
ticket on which a single call returns `r`. -/
theorem getJobNumber_walk (w : World) (r : GoString → GoString × GoString)
    (k : Nat) (t : Nat → GoString) (fuel : Nat)
    (hlink : ∀ i, i < k → w.TrimSpace (w.issue (t i)).topix = [] ∧
      w.TrimSpace (w.issue (t i)).parent ≠ [] ∧ (w.issue (t i)).parent = t (i + 1))
    (hlast : ∀ f, getJobNumber w (f + 1) (t k) = ([issueRequest w (t k)], some (r (t k))))
    (hfuel : k < fuel) :
    getJobNumber w fuel (t 0) =
      ((List.range (k + 1)).map (fun i => issueRequest w (t i)), some (r (t k))) := by
  induction k generalizing t fuel with
  | zero =>
    obtain ⟨f, rfl⟩ : ∃ f, fuel = f + 1 := ⟨fuel - 1, by omega⟩
    simpa using hlast f
  | succ k ih =>
    obtain ⟨f, rfl⟩ : ∃ f, fuel = f + 1 := ⟨fuel - 1, by omega⟩
    obtain ⟨h0, hp0, hn0⟩ := hlink 0 (by omega)
    have hrec := ih (fun i => t (i + 1)) f
      (fun i hi => hlink (i + 1) (by omega)) hlast (by omega)
    rw [getJobNumber_hop w f (t 0) h0 hp0, hn0, hrec,
      range_succ_map_shift (fun i => issueRequest w (t i)) (k + 1)]

/-- On an endless chain of tickets without a topix number the fuel always
runs out, after one request per unit of fuel. -/
theorem getJobNumber_endless (w : World) (fuel : Nat) (t : Nat → GoString)
    (hlink : ∀ i, w.TrimSpace (w.issue (t i)).topix = [] ∧
      w.TrimSpace (w.issue (t i)).parent ≠ [] ∧ (w.issue (t i)).parent = t (i + 1)) :
    getJobNumber w fuel (t 0) =
      ((List.range fuel).map (fun i => issueRequest w (t i)), none) := by
  induction fuel generalizing t with
  | zero => simp [getJobNumber]
  | succ f ih =>
    obtain ⟨h0, hp0, hn0⟩ := hlink 0
    rw [getJobNumber_hop w f (t 0) h0 hp0, hn0, ih (fun i => t (i + 1)) (fun i => hlink (i + 1)),
      range_succ_map_shift (fun i => issueRequest w (t i)) f]

theorem cycleTickets_link (i : Nat) :
    cycleWorld.TrimSpace (cycleWorld.issue (cycleTickets i)).topix = [] ∧
      cycleWorld.TrimSpace (cycleWorld.issue (cycleTickets i)).parent ≠ [] ∧
      (cycleWorld.issue (cycleTickets i)).parent = cycleTickets (i + 1) := by
  rcases Nat.mod_two_eq_zero_or_one i with h | h
  · have h1 : (i + 1) % 2 = 1 := by omega
    simp only [cycleTickets, h, h1]
    decide
  · have h1 : (i + 1) % 2 = 0 := by omega
    simp only [cycleTickets, h, h1]
    decide

/-! ## The claims -/

/-- C1: for a feed whose entries all have an `updated` of at least 10 bytes,
the grouping loop returns, and for every key `k` the group `groupedEntries[k]`
is the subsequence of the feed's entries whose derived key is `k`, in feed
order; every entry lies in exactly one group, and the lengths of the groups
of the key sequence sum to the number of entries. -/
theorem grouping_partitions_entries (feeds : Feed)
    (h : ∀ e ∈ feeds.Entries, 10 ≤ e.Updated.length) :
    ∃ groupedEntries keys, groupEntries feeds = some (groupedEntries, keys) ∧
      (∀ k, groupedEntries.get k =
        feeds.Entries.filter (fun e => decide (entryKey e = some k))) ∧
      (∀ e ∈ feeds.Entries, ∃! k, e ∈ groupedEntries.get k) ∧
      (keys.map (fun k => (groupedEntries.get k).length)).sum = feeds.Entries.length := by
  obtain ⟨g, ks, hg, hget, hks, _⟩ := groupEntries_eq feeds h
  refine ⟨g, ks, hg, hget, ?_, ?_⟩
  · intro e he
    refine ⟨sprintfKey (e.Updated.take 10) (ticketOf e), ?_, ?_⟩
    · simp only [hget, List.mem_filter, decide_eq_true_eq]
      exact ⟨he, entryKey_of_le e (h e he)⟩
    · intro k hk
      simp only [hget, List.mem_filter, decide_eq_true_eq] at hk
      have := hk.2
      rw [entryKey_of_le e (h e he)] at this
      exact (Option.some.inj this).symm
  · simp only [hget]
    apply sum_group_lengths ks (hks ▸ nodup_dedupKeepFirst _)
    intro e he
    refine ⟨sprintfKey (e.Updated.take 10) (ticketOf e), ?_, entryKey_of_le e (h e he)⟩
    rw [hks, mem_dedupKeepFirst, List.mem_filterMap]
    exact ⟨e, he, entryKey_of_le e (h e he)⟩

/-- Witness of C1 on the sample feed of four entries. -/
theorem grouping_partitions_entries_witness :
    (∀ e ∈ sampleFeed.Entries, 10 ≤ e.Updated.length) ∧
    ∃ groupedEntries keys, groupEntries sampleFeed = some (groupedEntries, keys) ∧
      (∀ k, groupedEntries.get k =
        sampleFeed.Entries.filter (fun e => decide (entryKey e = some k))) ∧
      (∀ e ∈ sampleFeed.Entries, ∃! k, e ∈ groupedEntries.get k) ∧
      (keys.map (fun k => (groupedEntries.get k).length)).sum = sampleFeed.Entries.length :=
  ⟨by decide, grouping_partitions_entries sampleFeed (by decide)⟩

/-- C2: for a feed whose entries all have an `updated` of at least 10 bytes,
`keys.Values()` after the grouping loop is the list of the entries' derived
keys (one per entry) with duplicates removed, the first occurrence kept: no
key repeats, there are as many keys as distinct derived keys, key `a` comes
before key `b` exactly when the first entry with key `a` comes before the
first entry with key `b`, and the keys are those of the group map. -/
theorem key_sequence_first_occurrence (feeds : Feed)
    (h : ∀ e ∈ feeds.Entries, 10 ≤ e.Updated.length) :
    ∃ groupedEntries keys, groupEntries feeds = some (groupedEntries, keys) ∧
      (feeds.Entries.filterMap entryKey).length = feeds.Entries.length ∧
      keys = dedupKeepFirst (feeds.Entries.filterMap entryKey) ∧
      keys.Nodup ∧
      keys.length = (feeds.Entries.filterMap entryKey).toFinset.card ∧
      (∀ a b, a ∈ keys → b ∈ keys →
        (keys.findIdx (fun k => decide (k = a)) < keys.findIdx (fun k => decide (k = b)) ↔
          feeds.Entries.findIdx (fun e => decide (entryKey e = some a)) <
            feeds.Entries.findIdx (fun e => decide (entryKey e = some b)))) ∧
      (∀ k, k ∈ keys ↔ (groupedEntries k).isSome) := by
  obtain ⟨g, ks, hg, _, hks, hdom⟩ := groupEntries_eq feeds h
  refine ⟨g, ks, hg, filterMap_entryKey_length _ h, hks, ?_, ?_, ?_, ?_⟩
  · exact hks ▸ nodup_dedupKeepFirst _
  · rw [hks]
    exact length_dedupKeepFirst _
  · intro a b _ _
    rw [hks, findIdx_dedupKeepFirst_lt_iff, findIdx_filterMap_entryKey _ h,
      findIdx_filterMap_entryKey _ h]
  · intro k
    rw [hdom k, hks, mem_dedupKeepFirst]

/-- Witness of C2 on the sample feed: its key sequence has three keys. -/
theorem key_sequence_first_occurrence_witness :
    (∀ e ∈ sampleFeed.Entries, 10 ≤ e.Updated.length) ∧
    (groupEntries sampleFeed).map Prod.snd =
      some [str "2024-03-05_T-1", str "2024-03-05_O-2", str "2024-03-06_T-1"] ∧
    ∃ groupedEntries keys, groupEntries sampleFeed = some (groupedEntries, keys) ∧
      (sampleFeed.Entries.filterMap entryKey).length = sampleFeed.Entries.length ∧
      keys = dedupKeepFirst (sampleFeed.Entries.filterMap entryKey) ∧
      keys.Nodup ∧
      keys.length = (sampleFeed.Entries.filterMap entryKey).toFinset.card ∧
      (∀ a b, a ∈ keys → b ∈ keys →
        (keys.findIdx (fun k => decide (k = a)) < keys.findIdx (fun k => decide (k = b)) ↔
          sampleFeed.Entries.findIdx (fun e => decide (entryKey e = some a)) <
            sampleFeed.Entries.findIdx (fun e => decide (entryKey e = some b)))) ∧
      (∀ k, k ∈ keys ↔ (groupedEntries k).isSome) :=
  ⟨by decide, by decide, key_sequence_first_occurrence sampleFeed (by decide)⟩

/-- C3: an entry whose `updated` has at least 10 bytes is grouped under the
key `updated[0:10] + "_" + ticket`, where the ticket is `target.title` when
that is non-empty and `object.title` otherwise: the loop body appends the
entry to the group of that key and adds that key to the key set. -/
theorem entry_key_derivation (entry : Entry) (h : 10 ≤ entry.Updated.length)
    (st : EntryMap × List GoString) :
    entryKey entry = some (entry.Updated.take 10 ++ str "_" ++
      (if entry.Target.Title ≠ [] then entry.Target.Title else entry.Object.Title)) ∧
    groupStep st entry = some
      (st.1.set (entry.Updated.take 10 ++ str "_" ++
          (if entry.Target.Title ≠ [] then entry.Target.Title else entry.Object.Title))
        (st.1.get (entry.Updated.take 10 ++ str "_" ++
          (if entry.Target.Title ≠ [] then entry.Target.Title else entry.Object.Title))
            ++ [entry]),
       linkedAdd st.2 (entry.Updated.take 10 ++ str "_" ++
          (if entry.Target.Title ≠ [] then entry.Target.Title else entry.Object.Title))) := by
  have hk : entryKey entry = some (entry.Updated.take 10 ++ str "_" ++
      (if entry.Target.Title ≠ [] then entry.Target.Title else entry.Object.Title)) := by
    rw [entryKey_of_le entry h]
    unfold sprintfKey ticketOf
    by_cases ht : entry.Target.Title = []
    · simp [ht]
    · simp [ht]
  exact ⟨hk, by simp only [groupStep, hk, Option.map_some']⟩

/-- Witness of C3: the two examples of the spec. The entry with target title
T-1, object title O-1 and updated 2024-03-05T10:00:00Z has the key
2024-03-05_T-1; the entry with no target title and object title O-2 has the
key 2024-03-05_O-2. -/
theorem entry_key_derivation_witness :
    10 ≤ entryT1.Updated.length ∧ 10 ≤ entryO2.Updated.length ∧
    entryKey entryT1 = some (str "2024-03-05_T-1") ∧
    entryKey entryO2 = some (str "2024-03-05_O-2") :=
  ⟨by decide, by decide,
    (entry_key_derivation entryT1 (by decide) (EntryMap.empty, [])).1.trans (by decide),
    (entry_key_derivation entryO2 (by decide) (EntryMap.empty, [])).1.trans (by decide)⟩

/-- C8: on the key sequence that grouping produces (entries with an `updated`
of at least 10 bytes), the report loop returns, and its output is, key by
key in order, the block of that key: a date header holding the key's 10-byte
date right before the ticket block exactly when that date differs from the
date of the key before it (for the first key always), then the ticket block.
So the number of date headers is the number of keys whose date differs from
the date of the key before them. -/
theorem report_date_headers (feeds : Feed)
    (h : ∀ e ∈ feeds.Entries, 10 ≤ e.Updated.length) :
    ∃ groupedEntries keys out, groupEntries feeds = some (groupedEntries, keys) ∧
      report groupedEntries keys = some out ∧
      out = (List.zip (none :: keys.map some) keys).flatMap
        (fun pk => keyBlock groupedEntries pk.1 pk.2) ∧
      out.countP Out.isHeader = (List.zip (none :: keys.map some) keys).countP
        (fun pk => decide (pk.1.map (List.take 10) ≠ some (pk.2.take 10))) := by
  obtain ⟨g, ks, hg, _, hks, _⟩ := groupEntries_eq feeds h
  obtain ⟨date', hr⟩ := reportLoop_eq g ks (keys_length_of_groupEntries feeds ks hks) none []
    [] rfl (by intro p hp; cases hp)
  refine ⟨g, ks, _, hg, ?_, rfl, countP_isHeader_blocks g _⟩
  simp [report, hr]

/-- Witness of C8: the sample feed has three keys with the dates D, D, D2, and
its report has two date headers, before the first and before the third
ticket block. -/
theorem report_date_headers_witness :
    (∀ e ∈ sampleFeed.Entries, 10 ≤ e.Updated.length) ∧
    mainReport sampleFeed = some
      [Out.println (str "2024-03-05"),
       Out.printActionDetail (str "T-1") [entryT1, entryT1],
       Out.printActionDetail (str "O-2") [entryO2],
       Out.println (str "2024-03-06"),
       Out.printActionDetail (str "T-1") [entryT1b]] ∧
    ∃ groupedEntries keys out, groupEntries sampleFeed = some (groupedEntries, keys) ∧
      report groupedEntries keys = some out ∧
      out = (List.zip (none :: keys.map some) keys).flatMap
        (fun pk => keyBlock groupedEntries pk.1 pk.2) ∧
      out.countP Out.isHeader = (List.zip (none :: keys.map some) keys).countP
        (fun pk => decide (pk.1.map (List.take 10) ≠ some (pk.2.take 10))) :=
  ⟨by decide, by decide, report_date_headers sampleFeed (by decide)⟩

/-- C10: the key encoding round-trips. For a 10-byte date and any ticket
string, the key `date + "_" + ticket` has `key[:10] = date` and
`key[11:] = ticket`, both slices in range; so for entries with an `updated`
of at least 10 bytes the report loop recovers the date and the ticket of an
entry from its key, two entries share a key exactly when they have the same
date and the same ticket, and in the report of a feed every call of
`printActionDetail` gets the ticket of every entry of the group it gets. -/
theorem key_encoding_round_trip (feeds : Feed)
    (h : ∀ e ∈ feeds.Entries, 10 ≤ e.Updated.length) :
    (∀ date ticket : GoString, date.length = 10 →
      sliceTo (sprintfKey date ticket) 10 = some date ∧
      sliceFrom (sprintfKey date ticket) 11 = some ticket) ∧
    (∀ e ∈ feeds.Entries, ∃ key, entryKey e = some key ∧
      sliceTo key 10 = some (e.Updated.take 10) ∧ sliceFrom key 11 = some (ticketOf e)) ∧
    (∀ e1 ∈ feeds.Entries, ∀ e2 ∈ feeds.Entries,
      (entryKey e1 = entryKey e2 ↔
        e1.Updated.take 10 = e2.Updated.take 10 ∧ ticketOf e1 = ticketOf e2)) ∧
    (∃ out, mainReport feeds = some out ∧
      ∀ ticket entries, Out.printActionDetail ticket entries ∈ out →
        ∀ e ∈ entries, e ∈ feeds.Entries ∧ ticketOf e = ticket) := by
  have hslice : ∀ date ticket : GoString, date.length = 10 →
      sliceTo (sprintfKey date ticket) 10 = some date ∧
      sliceFrom (sprintfKey date ticket) 11 = some ticket := by
    intro date ticket hd
    have hl := length_sprintfKey date ticket
    rw [sliceTo_of_le _ _ (by omega), sliceFrom_of_le _ _ (by omega),
      take_sprintfKey _ _ hd, drop_sprintfKey _ _ hd]
    exact ⟨rfl, rfl⟩
  refine ⟨hslice, ?_, ?_, ?_⟩
  · intro e he
    exact ⟨_, entryKey_of_le e (h e he), hslice _ _ (length_take_updated e (h e he))⟩
  · intro e1 h1 e2 h2
    rw [entryKey_of_le e1 (h e1 h1), entryKey_of_le e2 (h e2 h2), Option.some.injEq]
    exact sprintfKey_inj _ _ _ _ (length_take_updated e1 (h e1 h1))
      (length_take_updated e2 (h e2 h2))
  · obtain ⟨g, ks, hg, hget, hks, _⟩ := groupEntries_eq feeds h
    obtain ⟨date', hr⟩ := reportLoop_eq g ks (keys_length_of_groupEntries feeds ks hks) none []
      [] rfl (by intro p hp; cases hp)
    refine ⟨[] ++ (List.zip (none :: ks.map some) ks).flatMap (fun pk => keyBlock g pk.1 pk.2),
      by simp only [mainReport, hg, Option.some_bind, report, hr, Option.map_some'], ?_⟩
    intro ticket entries hmem e he
    simp only [List.nil_append, List.mem_flatMap] at hmem
    obtain ⟨pk, _, hblock⟩ := hmem
    have hd : Out.printActionDetail ticket entries =
        Out.printActionDetail (pk.2.drop 11) (g.get pk.2) := by
      unfold keyBlock at hblock
      split at hblock
      · simpa using hblock
      · simpa using hblock
    injection hd with ht hen
    subst ht hen
    rw [hget, List.mem_filter, decide_eq_true_eq] at he
    refine ⟨he.1, ?_⟩
    have hkey := he.2
    rw [entryKey_of_le e (h e he.1)] at hkey
    rw [← Option.some.inj hkey, drop_sprintfKey _ _ (length_take_updated e (h e he.1))]

/-- Witness of C10 on the sample feed. -/
theorem key_encoding_round_trip_witness :
    (∀ e ∈ sampleFeed.Entries, 10 ≤ e.Updated.length) ∧
    (∀ date ticket : GoString, date.length = 10 →
      sliceTo (sprintfKey date ticket) 10 = some date ∧
      sliceFrom (sprintfKey date ticket) 11 = some ticket) ∧
    (∀ e ∈ sampleFeed.Entries, ∃ key, entryKey e = some key ∧
      sliceTo key 10 = some (e.Updated.take 10) ∧ sliceFrom key 11 = some (ticketOf e)) ∧
    (∀ e1 ∈ sampleFeed.Entries, ∀ e2 ∈ sampleFeed.Entries,
      (entryKey e1 = entryKey e2 ↔
        e1.Updated.take 10 = e2.Updated.take 10 ∧ ticketOf e1 = ticketOf e2)) ∧
    (∃ out, mainReport sampleFeed = some out ∧
      ∀ ticket entries, Out.printActionDetail ticket entries ∈ out →
        ∀ e ∈ entries, e ∈ sampleFeed.Entries ∧ ticketOf e = ticket) :=
  ⟨by decide, key_encoding_round_trip sampleFeed (by decide)⟩

/-- C4: let t 0, ..., t k be a parent chain in which every ticket below t k
has an empty topix field (empty after `strings.TrimSpace`, so white space
only counts as empty) and a parent field that is non-empty in the same
sense and names the next ticket, and t k has a non-empty topix field. Then
`getJobNumber (t 0)` returns with any fuel above k, its result is the topix
and the job field of t k, and the requests it sends are those for
t 0, ..., t k, in order, and no other. -/
theorem getJobNumber_nearest_topix (w : World) (t : Nat → GoString) (k fuel : Nat)
    (hlink : ∀ i, i < k → w.TrimSpace (w.issue (t i)).topix = [] ∧
      w.TrimSpace (w.issue (t i)).parent ≠ [] ∧ (w.issue (t i)).parent = t (i + 1))
    (htop : w.TrimSpace (w.issue (t k)).topix ≠ [])
    (hfuel : k < fuel) :
    getJobNumber w fuel (t 0) =
      ((List.range (k + 1)).map (fun i => issueRequest w (t i)),
        some ((w.issue (t k)).topix, (w.issue (t k)).job)) :=
  getJobNumber_walk w (fun x => ((w.issue x).topix, (w.issue x).job)) k t fuel hlink
    (fun f => getJobNumber_found w f (t k) htop) hfuel

/-- Witness of C4: the one-hop example of the spec (T-1 has the topix number
TPX-9, the job number JOB-1 and the parent T-2: the result is TPX-9, JOB-1
after the one request for T-1), and the chain T-0, T-1, T-2 in which T-0 has
a topix field of white space, T-1 an empty one and T-2 the topix number
TPX-5: the result is TPX-5, JOB-2 after three requests. -/
theorem getJobNumber_nearest_topix_witness :
    getJobNumber oneHopWorld 1 (str "T-1") =
      ([issueRequest oneHopWorld (str "T-1")], some (str "TPX-9", str "JOB-1")) ∧
    getJobNumber chainWorld 3 (str "T-0") =
      ([issueRequest chainWorld (str "T-0"), issueRequest chainWorld (str "T-1"),
        issueRequest chainWorld (str "T-2")], some (str "TPX-5", str "JOB-2")) :=
  ⟨getJobNumber_nearest_topix oneHopWorld (fun _ => str "T-1") 0 1
      (fun i hi => absurd hi (Nat.not_lt_zero i)) (by decide) (by decide),
    getJobNumber_nearest_topix chainWorld
      (fun i => if i = 0 then str "T-0" else if i = 1 then str "T-1" else str "T-2") 2 3
      (by decide) (by decide) (by decide)⟩

/-- C5: a ticket whose topix field is empty (after `strings.TrimSpace`) and
which has no parent gets the result "Missing" with its own job field,
unchanged; and when it is the last ticket t k of a chain t 0, ..., t k of
tickets without a topix number, `getJobNumber (t 0)` returns this same pair
(k = 0 is the ticket itself). -/
theorem getJobNumber_missing (w : World) (t : Nat → GoString) (k fuel : Nat)
    (hlink : ∀ i, i < k → w.TrimSpace (w.issue (t i)).topix = [] ∧
      w.TrimSpace (w.issue (t i)).parent ≠ [] ∧ (w.issue (t i)).parent = t (i + 1))
    (htop : w.TrimSpace (w.issue (t k)).topix = [])
    (hroot : w.TrimSpace (w.issue (t k)).parent = [])
    (hfuel : k < fuel) :
    getJobNumber w fuel (t 0) =
      ((List.range (k + 1)).map (fun i => issueRequest w (t i)),
        some (str "Missing", (w.issue (t k)).job)) :=
  getJobNumber_walk w (fun x => (str "Missing", (w.issue x).job)) k t fuel hlink
    (fun f => getJobNumber_root w f (t k) htop hroot) hfuel

/-- Witness of C5: R-1 has no topix number and no parent, so it gets
"Missing" and its job number JOB-R; its child C-1 gets the same pair. -/
theorem getJobNumber_missing_witness :
    getJobNumber rootWorld 1 (str "R-1") =
      ([issueRequest rootWorld (str "R-1")], some (str "Missing", str "JOB-R")) ∧
    getJobNumber rootWorld 2 (str "C-1") =
      ([issueRequest rootWorld (str "C-1"), issueRequest rootWorld (str "R-1")],
        some (str "Missing", str "JOB-R")) :=
  ⟨getJobNumber_missing rootWorld (fun _ => str "R-1") 0 1
      (fun i hi => absurd hi (Nat.not_lt_zero i)) (by decide) (by decide) (by decide),
    getJobNumber_missing rootWorld (fun i => if i = 0 then str "C-1" else str "R-1") 1 2
      (by decide) (by decide) (by decide) (by decide)⟩

/-- C6 on the code: `isValidTicket` returns the nil error for every string,
so no ticket is rejected. The string "not a ticket" does not match the
pattern, and `getJobNumber` still sends the issue-detail request for it
instead of returning "Invalid ticket number not a ticket". -/
theorem invalid_ticket_is_fetched :
    matchesTicketPattern (str "not a ticket") = false ∧
    (∀ ticket, isValidTicket ticket = (ticket, none)) ∧
    (∀ (w : World) (fuel : Nat), ∃ rest result,
      getJobNumber w (fuel + 1) (str "not a ticket") =
        (issueRequest w (str "not a ticket") :: rest, result)) ∧
    getJobNumber oneHopWorld 1 (str "not a ticket") =
      ([issueRequest oneHopWorld (str "not a ticket")], some (str "Missing", [])) := by
  refine ⟨by decide, ?_, ?_, by decide⟩
  · intro ticket
    simp [isValidTicket, regexpMatchTicket]
  · intro w fuel
    by_cases h : w.TrimSpace (w.issue (str "not a ticket")).topix = []
    · by_cases hp : w.TrimSpace (w.issue (str "not a ticket")).parent = []
      · exact ⟨_, _, getJobNumber_root w fuel _ h hp⟩
      · exact ⟨_, _, getJobNumber_hop w fuel _ h hp⟩
    · exact ⟨_, _, getJobNumber_found w fuel _ h⟩

/-- C7 refuted: in the cycle T-1, T-2, T-1 of two tickets without a topix
number, `getJobNumber` returns with no amount of fuel, and with fuel n it
sends n requests: it has no bound on the hops and no error result. -/
theorem cycle_never_returns :
    (¬ ∃ fuel result, (getJobNumber cycleWorld fuel (str "T-1")).2 = some result) ∧
    (∀ n, (getJobNumber cycleWorld n (str "T-1")).1.length = n) := by
  have h : ∀ fuel, getJobNumber cycleWorld fuel (str "T-1") =
      ((List.range fuel).map (fun i => issueRequest cycleWorld (cycleTickets i)), none) :=
    fun fuel => getJobNumber_endless cycleWorld fuel cycleTickets cycleTickets_link
  constructor
  · rintro ⟨fuel, result, hr⟩
    rw [h fuel] at hr
    exact Option.noConfusion hr
  · intro n
    rw [h n]
    simp

/-- C7 as amended: when the parent references from a ticket never reach a
ticket with a topix number or without a parent (as in a cycle through
tickets with empty topix fields), `getJobNumber` has no hop ceiling: with
any fuel it runs out of fuel without a result, having sent one request per
unit of fuel, for the tickets along the chain. -/
theorem getJobNumber_cycle_unbounded (w : World) (t : Nat → GoString) (fuel : Nat)
    (hlink : ∀ i, w.TrimSpace (w.issue (t i)).topix = [] ∧
      w.TrimSpace (w.issue (t i)).parent ≠ [] ∧ (w.issue (t i)).parent = t (i + 1)) :
    getJobNumber w fuel (t 0) =
      ((List.range fuel).map (fun i => issueRequest w (t i)), none) :=
  getJobNumber_endless w fuel t hlink

/-- Witness of amended C7: five units of fuel in the cycle T-1, T-2, T-1. -/
theorem getJobNumber_cycle_unbounded_witness :
    getJobNumber cycleWorld 5 (str "T-1") =
      ((List.range 5).map (fun i => issueRequest cycleWorld (cycleTickets i)), none) :=
  getJobNumber_cycle_unbounded cycleWorld cycleTickets 5 cycleTickets_link

/-- C9 on the code: the issue-detail request is a GET to
`<jiraURL>/rest/api/latest/issue/<ticket>`, and its Authorization header is
the value of the variable JIRA_TOKEN, not the package-level `token` read
from J_JIRA_TOKEN. In an environment that passes `validateData` with
J_JIRA_TOKEN set to "Bearer abc" and JIRA_TOKEN unset, the feed request
carries "Bearer abc" and the issue-detail request an empty header. -/
theorem issue_request_token_differs :
    (∀ (w : World) (ticket : GoString),
      (issueRequest w ticket).method = str "GET" ∧
      (issueRequest w ticket).url = jiraURL w ++ str "/rest/api/latest/issue/" ++ ticket ∧
      (issueRequest w ticket).authorization = w.getenv (str "JIRA_TOKEN")) ∧
    validateData oneHopWorld (str "alice") = none ∧
    token oneHopWorld = str "Bearer abc" ∧
    (feedRequest oneHopWorld (str "https://jira.example.com/activity")).authorization =
      str "Bearer abc" ∧
    (getJobNumber oneHopWorld 1 (str "T-1")).1 =
      [{ method := str "GET", url := str "https://jira.example.com/rest/api/latest/issue/T-1",
         authorization := [] }] := by
  refine ⟨fun w ticket => ⟨rfl, rfl, rfl⟩, by decide, by decide, by decide, by decide⟩

end JiraTrack
